import Mathlib

/-!
Shallow embedding of the GGR-recon preprocessing sources
(`src/preprocess.py` and `src/pipeline.py`).

Python strings are modelled as `List Char`; Python string comparison is
code-point lexicographic comparison, embedded below as `strLTb`/`strLEb`.
Python's `sorted` is a stable sort by a comparison key; it is modelled by
`List.insertionSort` (also stable) with the corresponding decidable relation.
Python dictionaries are modelled as association lists in insertion order;
`dict.get` is `getEntity` / assoc-list lookup.
-/

namespace GGRRecon

/-- Python string: a sequence of characters (code points). -/
abbrev Str := List Char

/-- Python's `<` on strings: lexicographic comparison by code point. -/
def strLTb : Str → Str → Bool
  | _, [] => false
  | [], _ :: _ => true
  | a :: as, b :: bs => if a < b then true else if b < a then false else strLTb as bs

/-- Python's `<=` on strings, as the negation of the reversed `<`. -/
def strLEb (s t : Str) : Bool := !(strLTb t s)

/-- Propositional form of `strLTb`. -/
def strLT (s t : Str) : Prop := strLTb s t = true

/-- Propositional form of `strLEb`. -/
def strLE (s t : Str) : Prop := strLEb s t = true

instance : DecidableRel strLT := fun s t => inferInstanceAs (Decidable (_ = true))

instance : DecidableRel strLE := fun s t => inferInstanceAs (Decidable (_ = true))

theorem strLTb_irrefl : ∀ s : Str, strLTb s s = false := by
  intro s
  induction s with
  | nil => rfl
  | cons a as ih => simp [strLTb, ih]

theorem strLTb_asymm : ∀ s t : Str, strLTb s t = true → strLTb t s = false := by
  intro s
  induction s with
  | nil =>
    intro t h
    cases t with
    | nil => simpa [strLTb] using h
    | cons b bs => rfl
  | cons a as ih =>
    intro t h
    cases t with
    | nil => simp [strLTb] at h
    | cons b bs =>
      rcases lt_trichotomy a b with hab | hab | hab
      · simp [strLTb, hab, not_lt.mpr hab.le, ne_of_gt hab]
      · subst hab
        simp only [strLTb, lt_irrefl, if_false] at h ⊢
        exact ih bs h
      · simp [strLTb, hab, not_lt.mpr hab.le] at h

theorem strLTb_connex : ∀ s t : Str, strLTb s t = false → strLTb t s = false → s = t := by
  intro s
  induction s with
  | nil =>
    intro t h _
    cases t with
    | nil => rfl
    | cons b bs => simp [strLTb] at h
  | cons a as ih =>
    intro t h h'
    cases t with
    | nil => simp [strLTb] at h'
    | cons b bs =>
      rcases lt_trichotomy a b with hab | hab | hab
      · simp [strLTb, hab] at h
      · subst hab
        simp only [strLTb, lt_irrefl, if_false] at h h'
        rw [ih bs h h']
      · simp [strLTb, hab] at h'

theorem strLTb_trans :
    ∀ s t u : Str, strLTb s t = true → strLTb t u = true → strLTb s u = true := by
  intro s
  induction s with
  | nil =>
    intro t u h h'
    cases t with
    | nil => simp [strLTb] at h
    | cons b bs =>
      cases u with
      | nil => simp [strLTb] at h'
      | cons c cs => rfl
  | cons a as ih =>
    intro t u h h'
    cases t with
    | nil => simp [strLTb] at h
    | cons b bs =>
      cases u with
      | nil => simp [strLTb] at h'
      | cons c cs =>
        rcases lt_trichotomy a b with hab | hab | hab
        · rcases lt_trichotomy b c with hbc | hbc | hbc
          · have : a < c := lt_trans hab hbc
            simp [strLTb, this]
          · subst hbc
            simp [strLTb, hab]
          · simp [strLTb, hbc, not_lt.mpr hbc.le] at h'
        · subst hab
          simp only [strLTb, lt_irrefl, if_false] at h
          rcases lt_trichotomy a c with hac | hac | hac
          · simp [strLTb, hac]
          · subst hac
            simp only [strLTb, lt_irrefl, if_false] at h' ⊢
            exact ih bs cs h h'
          · simp [strLTb, hac, not_lt.mpr hac.le] at h'
        · simp [strLTb, hab, not_lt.mpr hab.le] at h

theorem strLE_total : ∀ s t : Str, strLE s t ∨ strLE t s := by
  intro s t
  by_cases h : strLTb t s = true
  · exact Or.inr (by simp [strLE, strLEb, strLTb_asymm t s h])
  · have h0 : strLTb t s = false := by simpa using h
    exact Or.inl (by simp [strLE, strLEb, h0])

theorem strLE_antisymm : ∀ s t : Str, strLE s t → strLE t s → s = t := by
  intro s t h h'
  simp only [strLE, strLEb, Bool.not_eq_true'] at h h'
  exact strLTb_connex s t h' h

theorem strLE_trans : ∀ s t u : Str, strLE s t → strLE t u → strLE s u := by
  intro s t u h h'
  simp only [strLE, strLEb, Bool.not_eq_true'] at h h' ⊢
  by_contra hus
  rw [Bool.not_eq_false] at hus
  by_cases hst : strLTb s t = true
  · exact absurd (strLTb_trans u s t hus hst) (by simp [h'])
  · have hst0 : strLTb s t = false := by simpa using hst
    have : s = t := strLTb_connex s t hst0 h
    subst this
    exact absurd hus (by simp [h'])

instance : IsTotal Str strLE := ⟨strLE_total⟩

instance : IsTrans Str strLE := ⟨strLE_trans⟩

instance : IsAntisymm Str strLE := ⟨strLE_antisymm⟩

theorem strLT_trans : ∀ s t u : Str, strLT s t → strLT t u → strLT s u :=
  fun s t u h h' => strLTb_trans s t u h h'

theorem strLT_asymm' : ∀ s t : Str, strLT s t → ¬ strLT t s := by
  intro s t h h'
  have := strLTb_asymm s t h
  rw [h'] at this
  exact Bool.true_eq_false.mp this

theorem strLT_or_eq_of_not_lt {s t : Str} (h : ¬ strLT t s) : strLT s t ∨ s = t := by
  by_cases h' : strLT s t
  · exact Or.inl h'
  · have h0 : strLTb s t = false := by simpa [strLT] using h'
    have h1 : strLTb t s = false := by simpa [strLT] using h
    exact Or.inr (strLTb_connex s t h0 h1)

/-- Python's comparison of two `(key, value)` string tuples: lexicographic,
first key then value. This is the order `sorted(items)` uses in
`group_key_from_entities`. -/
def pairLE (a b : Str × Str) : Prop :=
  strLT a.1 b.1 ∨ (a.1 = b.1 ∧ strLE a.2 b.2)

instance : DecidableRel pairLE := fun a b => inferInstanceAs (Decidable (_ ∨ _))

theorem strLE_of_strLT {s t : Str} (h : strLT s t) : strLE s t := by
  simp [strLE, strLEb, strLTb_asymm s t h]

theorem strLE_refl (s : Str) : strLE s s := by
  simp [strLE, strLEb, strLTb_irrefl s]

instance : IsTotal (Str × Str) pairLE := by
  refine ⟨fun a b => ?_⟩
  by_cases h : strLT a.1 b.1
  · exact Or.inl (Or.inl h)
  · rcases strLT_or_eq_of_not_lt h with h' | h'
    · exact Or.inr (Or.inl h')
    · rcases strLE_total a.2 b.2 with h2 | h2
      · exact Or.inl (Or.inr ⟨h'.symm, h2⟩)
      · exact Or.inr (Or.inr ⟨h', h2⟩)

instance : IsTrans (Str × Str) pairLE := by
  refine ⟨fun a b c hab hbc => ?_⟩
  rcases hab with h1 | ⟨h1, h1'⟩
  · rcases hbc with h2 | ⟨h2, _⟩
    · exact Or.inl (strLT_trans _ _ _ h1 h2)
    · exact Or.inl (h2 ▸ h1)
  · rcases hbc with h2 | ⟨h2, h2'⟩
    · exact Or.inl (h1 ▸ h2)
    · exact Or.inr ⟨h1.trans h2, strLE_trans _ _ _ h1' h2'⟩

instance : IsAntisymm (Str × Str) pairLE := by
  refine ⟨fun a b hab hba => ?_⟩
  rcases hab with h1 | ⟨h1, h1'⟩
  · rcases hba with h2 | ⟨h2, _⟩
    · exact absurd h2 (strLT_asymm' _ _ h1)
    · exact absurd h1 (h2 ▸ strLT_asymm' _ _ (h2 ▸ h1))
  · rcases hba with h2 | ⟨h2, h2'⟩
    · exact absurd h2 (h1 ▸ strLT_asymm' _ _ (h1 ▸ h2))
    · exact Prod.ext h1 (strLE_antisymm _ _ h1' h2')

/-- Sorting two permuted lists with a total, transitive, antisymmetric relation
gives the same result (Python's `sorted` is order-of-input independent then). -/
theorem insertionSort_eq_of_perm {α : Type} (r : α → α → Prop) [DecidableRel r]
    [IsTotal α r] [IsTrans α r] [IsAntisymm α r] {l₁ l₂ : List α} (h : l₁.Perm l₂) :
    List.insertionSort r l₁ = List.insertionSort r l₂ :=
  List.eq_of_perm_of_sorted
    ((List.perm_insertionSort r l₁).trans (h.trans (List.perm_insertionSort r l₂).symm))
    (List.sorted_insertionSort r l₁) (List.sorted_insertionSort r l₂)

/-- An entity map: a Python dict in insertion order, values already stringified;
`none` models Python `None`. -/
abbrev Entities := List (Str × Option Str)

/-- Python `entities.get(key)`, flattened: `none` when the key is absent or its
value is `None`. -/
def getEntity (entities : Entities) (key : Str) : Option Str :=
  match entities.find? (fun kv => decide (kv.1 = key)) with
  | none => none
  | some kv => kv.2

namespace Preprocess

/-- `GROUP_EXCLUDED_ENTITIES` of src/preprocess.py line 53.
Note: `datatype` is NOT in this set (unlike src/pipeline.py line 27). -/
def GROUP_EXCLUDED_ENTITIES : List Str :=
  ["acquisition".data, "suffix".data, "extension".data]

/-- `group_key_from_entities` of src/preprocess.py lines 99-105: keep the
non-`None` entities whose key is not excluded, as `(key, str(value))` pairs,
and return them sorted (Python `tuple(sorted(items))`). -/
def group_key_from_entities (entities : Entities) : List (Str × Str) :=
  List.insertionSort pairLE (entities.filterMap fun kv =>
    match kv.2 with
    | none => none
    | some v => if kv.1 ∈ GROUP_EXCLUDED_ENTITIES then none else some (kv.1, v))

end Preprocess

namespace Pipeline

/-- `GROUP_EXCLUDED_ENTITIES` of src/pipeline.py line 27 (includes `datatype`). -/
def GROUP_EXCLUDED_ENTITIES : List Str :=
  ["acquisition".data, "suffix".data, "extension".data, "datatype".data]

/-- `group_key_from_entities` of src/pipeline.py lines 121-127. -/
def group_key_from_entities (entities : Entities) : List (Str × Str) :=
  List.insertionSort pairLE (entities.filterMap fun kv =>
    match kv.2 with
    | none => none
    | some v => if kv.1 ∈ GROUP_EXCLUDED_ENTITIES then none else some (kv.1, v))

end Pipeline

/-- Association-list lookup, modelling Python `dict.get(key)` on a
string-to-string dict. -/
def assocGet (m : List (Str × Str)) (k : Str) : Option Str :=
  (m.find? (fun kv => decide (kv.1 = k))).map (·.2)

namespace Preprocess

/-- `ACQ_ORDER` of src/preprocess.py line 28. -/
def ACQ_ORDER : List Str := ["sag".data, "cor".data, "ax".data]

/-- `ENTITY_NAME_TO_LABEL` of src/preprocess.py lines 34-49. -/
def ENTITY_NAME_TO_LABEL : List (Str × Str) :=
  [("subject".data, "sub".data), ("session".data, "ses".data),
   ("acquisition".data, "acq".data), ("reconstruction".data, "rec".data),
   ("run".data, "run".data), ("echo".data, "echo".data),
   ("part".data, "part".data), ("desc".data, "desc".data),
   ("space".data, "space".data), ("ceagent".data, "ce".data),
   ("direction".data, "dir".data), ("chunk".data, "chunk".data),
   ("task".data, "task".data), ("inversion".data, "inv".data)]

/-- `normalize_bids_entity` of src/preprocess.py lines 60-67. -/
def normalize_bids_entity (name : Str) (value : Option Str) : Option Str :=
  match value with
  | none => none
  | some value =>
      let pre := name ++ "-".data
      if pre.isPrefixOf value then some value else some (pre ++ value)

/-- `entity_to_token` of src/preprocess.py lines 69-71. -/
def entity_to_token (key value : Str) : Str :=
  let label := (assocGet ENTITY_NAME_TO_LABEL key).getD key
  label ++ '-' :: value

/-- `format_group_label` of src/preprocess.py lines 107-126: the
sub/ses tokens first, then the remaining non-null entities (keys sorted,
skipping subject/session/datatype and the excluded set), joined by `_`. -/
def format_group_label (group_entities : Entities) : Str :=
  let sub := normalize_bids_entity "sub".data (getEntity group_entities "subject".data)
  let ses := normalize_bids_entity "ses".data (getEntity group_entities "session".data)
  let headParts := (match sub with | some s => [s] | none => [])
    ++ (match ses with | some s => [s] | none => [])
  let keys := List.insertionSort strLE (group_entities.map (·.1))
  let tailParts := keys.filterMap (fun key =>
    if key = "subject".data ∨ key = "session".data ∨ key = "datatype".data then none
    else if key ∈ GROUP_EXCLUDED_ENTITIES then none
    else match getEntity group_entities key with
      | none => none
      | some value => some (entity_to_token key value))
  List.intercalate "_".data (headParts ++ tailParts)

/-- A candidate group as built by `collect_candidate_groups`
(src/preprocess.py lines 128-146): its entity dict and its
acquisition-plane-to-path dict. -/
structure Group where
  entities : Entities
  acq_map : List (Str × Str)
deriving DecidableEq

/-- `all(acq in group['acq_map'] for acq in ACQ_ORDER)`
(src/preprocess.py line 151). -/
def isCompleteGroup (g : Group) : Bool :=
  ACQ_ORDER.all (fun acq => (assocGet g.acq_map acq).isSome)

/-- Outcome of `choose_complete_group`: the selected group, or one of the two
`ValueError`s of src/preprocess.py lines 154-158. -/
inductive ChooseResult where
  | ok (g : Group)
  | noComplete
  | multiple (labels : List Str)
deriving DecidableEq

/-- `choose_complete_group` of src/preprocess.py lines 148-160: filter to the
complete groups; zero of them is the "no complete acq-{sag,cor,ax} set found"
error, more than one is the "multiple complete BIDS groups found" error
carrying the sorted labels, otherwise the single one is returned. -/
def choose_complete_group (groups : List Group) : ChooseResult :=
  match groups.filter isCompleteGroup with
  | [] => .noComplete
  | [g] => .ok g
  | g1 :: g2 :: rest =>
      .multiple (List.insertionSort strLE
        ((g1 :: g2 :: rest).map fun g => format_group_label g.entities))

end Preprocess

/-- C7: selection succeeds iff exactly one complete group exists; zero complete
groups yields the fatal "no complete set" outcome; more than one yields the
fatal ambiguity outcome whose label list is exactly the complete groups'
labels, sorted; a returned group is a complete member of the input. -/
theorem choose_complete_group_props (groups : List Preprocess.Group) :
    ((∃ g, Preprocess.choose_complete_group groups = .ok g)
        ↔ (groups.filter Preprocess.isCompleteGroup).length = 1)
    ∧ ((groups.filter Preprocess.isCompleteGroup).length = 0 →
        Preprocess.choose_complete_group groups = .noComplete)
    ∧ (1 < (groups.filter Preprocess.isCompleteGroup).length →
        ∃ ls, Preprocess.choose_complete_group groups = .multiple ls
          ∧ ls.Perm ((groups.filter Preprocess.isCompleteGroup).map
              fun g => Preprocess.format_group_label g.entities)
          ∧ ls.Sorted strLE)
    ∧ (∀ g, Preprocess.choose_complete_group groups = .ok g →
        g ∈ groups ∧ Preprocess.isCompleteGroup g = true) := by
  rcases hc : groups.filter Preprocess.isCompleteGroup with _ | ⟨g1, _ | ⟨g2, rest⟩⟩
  · have hres : Preprocess.choose_complete_group groups = .noComplete := by
      unfold Preprocess.choose_complete_group
      rw [hc]
    rw [hres]
    refine ⟨?_, fun _ => rfl, ?_, ?_⟩
    · constructor
      · rintro ⟨g, hg⟩
        simp at hg
      · intro h
        simp at h
    · intro h
      simp at h
    · intro g hg
      simp at hg
  · have hres : Preprocess.choose_complete_group groups = .ok g1 := by
      unfold Preprocess.choose_complete_group
      rw [hc]
    rw [hres]
    refine ⟨⟨fun _ => rfl, fun _ => ⟨g1, rfl⟩⟩, ?_, ?_, ?_⟩
    · intro h
      simp at h
    · intro h
      simp at h
    · intro g hg
      obtain rfl : g1 = g := by simpa using hg
      have hmem : g1 ∈ groups.filter Preprocess.isCompleteGroup := by
        rw [hc]; exact List.mem_singleton_self g1
      exact ⟨(List.mem_filter.mp hmem).1, (List.mem_filter.mp hmem).2⟩
  · have hres : Preprocess.choose_complete_group groups = .multiple
        (List.insertionSort strLE
          ((g1 :: g2 :: rest).map fun g => Preprocess.format_group_label g.entities)) := by
      unfold Preprocess.choose_complete_group
      rw [hc]
    rw [hres]
    refine ⟨?_, ?_, fun _ => ?_, ?_⟩
    · constructor
      · rintro ⟨g, hg⟩
        simp at hg
      · intro h
        simp at h
    · intro h
      simp at h
    · exact ⟨_, rfl, List.perm_insertionSort strLE _,
        List.sorted_insertionSort strLE _⟩
    · intro g hg
      simp at hg

/-- C7 witness: two complete groups with distinct subjects produce the
ambiguity outcome with both labels, and the labels are sorted. -/
theorem choose_complete_group_props_witness :
    ∃ ls, Preprocess.choose_complete_group
        [⟨[("subject".data, some "02".data)],
          [("sag".data, "s2".data), ("cor".data, "c2".data), ("ax".data, "a2".data)]⟩,
         ⟨[("subject".data, some "01".data)],
          [("sag".data, "s1".data), ("cor".data, "c1".data), ("ax".data, "a1".data)]⟩]
        = .multiple ls
      ∧ ls.Perm [Preprocess.format_group_label [("subject".data, some "02".data)],
                 Preprocess.format_group_label [("subject".data, some "01".data)]]
      ∧ ls.Sorted strLE := by
  have h := (choose_complete_group_props
    [⟨[("subject".data, some "02".data)],
      [("sag".data, "s2".data), ("cor".data, "c2".data), ("ax".data, "a2".data)]⟩,
     ⟨[("subject".data, some "01".data)],
      [("sag".data, "s1".data), ("cor".data, "c1".data), ("ax".data, "a1".data)]⟩]).2.2.1
    (by decide)
  simpa using h

namespace Pipeline

/-- `ACQ_ORDER` of src/pipeline.py line 20. -/
def ACQ_ORDER : List Str := ["sag".data, "cor".data, "ax".data]

/-- The rank dict `order = {'subject': 0, 'session': 1, 'reconstruction': 2}`
with default 99 (src/pipeline.py line 141). -/
def entity_rank (k : Str) : Nat :=
  if k = "subject".data then 0
  else if k = "session".data then 1
  else if k = "reconstruction".data then 2
  else 99

/-- Comparison by the sort key `(order.get(kv[0], 99), kv[0], kv[1])` of
src/pipeline.py line 142. -/
def fgkLE (a b : Str × Str) : Prop :=
  entity_rank a.1 < entity_rank b.1
  ∨ (entity_rank a.1 = entity_rank b.1 ∧ pairLE a b)

instance : DecidableRel fgkLE := fun a b => inferInstanceAs (Decidable (_ ∨ _))

/-- `format_group_key` of src/pipeline.py lines 140-143. -/
def format_group_key (group_key : List (Str × Str)) : Str :=
  let pairs := List.insertionSort fgkLE group_key
  List.intercalate "_".data (pairs.map fun kv => kv.1 ++ '-' :: kv.2)

/-- One entry of the `groups.items()` sequence in `discover_group_filter_sets`:
the group key paired with the acquisition-plane-to-path dict. -/
abbrev GroupEntry := List (Str × Str) × List (Str × Str)

/-- The `--bids-filter key=value` argument list built from a group key
(src/pipeline.py lines 189-191). -/
def bids_filter_args (group_key : List (Str × Str)) : List Str :=
  group_key.foldl (fun acc kv => acc ++ ["--bids-filter".data, kv.1 ++ '=' :: kv.2]) []

/-- `all(acq in group['acq_map'] for acq in ACQ_ORDER)` (src/pipeline.py
line 188). -/
def hasAllPlanes (acq_map : List (Str × Str)) : Bool :=
  ACQ_ORDER.all fun acq => (assocGet acq_map acq).isSome

/-- The ordering used by `complete.sort(key=lambda item:
format_group_key(item[0]))` (src/pipeline.py line 194). -/
def dcLE (x y : List (Str × Str) × List Str) : Prop :=
  strLE (format_group_key x.1) (format_group_key y.1)

instance : DecidableRel dcLE := fun x y => inferInstanceAs (Decidable (_ = true))

/-- The complete-group collection and ordering of `discover_group_filter_sets`
(src/pipeline.py lines 186-195): keep groups with all three planes, pair each
with its filter arguments, and sort by the canonical label. -/
def discover_complete (groups : List GroupEntry) :
    List (List (Str × Str) × List Str) :=
  List.insertionSort dcLE
    ((groups.filter fun g => hasAllPlanes g.2).map fun g => (g.1, bids_filter_args g.1))

end Pipeline

instance : IsTotal (List (Str × Str) × List Str) Pipeline.dcLE :=
  ⟨fun x y => strLE_total _ _⟩

instance : IsTrans (List (Str × Str) × List Str) Pipeline.dcLE :=
  ⟨fun _ _ _ h h' => strLE_trans _ _ _ h h'⟩

/-- C9: batch discovery returns exactly the complete groups, sorted by their
canonical `format_group_key` label; when the complete groups' labels are
pairwise distinct, the returned list is the same for any iteration order of the
groups dict (a total order on the groups independent of discovery order). -/
theorem discover_complete_props (l1 l2 : List Pipeline.GroupEntry) (hperm : l1.Perm l2)
    (hlab : (l1.filter fun g => Pipeline.hasAllPlanes g.2).Pairwise
      (fun g h => Pipeline.format_group_key g.1 ≠ Pipeline.format_group_key h.1)) :
    Pipeline.discover_complete l1 = Pipeline.discover_complete l2
    ∧ (Pipeline.discover_complete l1).Sorted Pipeline.dcLE
    ∧ (∀ e, e ∈ Pipeline.discover_complete l1 ↔
        ∃ g ∈ l1, Pipeline.hasAllPlanes g.2 = true
          ∧ e = (g.1, Pipeline.bids_filter_args g.1)) := by
  refine ⟨?_, List.sorted_insertionSort Pipeline.dcLE _, ?_⟩
  · set R : (List (Str × Str) × List Str) → (List (Str × Str) × List Str) → Prop :=
      fun x y => Pipeline.dcLE x y
        ∧ Pipeline.format_group_key x.1 ≠ Pipeline.format_group_key y.1 with hR
    haveI : IsAntisymm (List (Str × Str) × List Str) R :=
      ⟨fun a b h1 h2 => absurd (strLE_antisymm _ _ h1.1 h2.1) h1.2⟩
    have hmapf : ∀ l : List Pipeline.GroupEntry,
        (l.filter fun g => Pipeline.hasAllPlanes g.2).Pairwise
          (fun g h => Pipeline.format_group_key g.1 ≠ Pipeline.format_group_key h.1) →
        ((l.filter fun g => Pipeline.hasAllPlanes g.2).map
            fun g => (g.1, Pipeline.bids_filter_args g.1)).Pairwise
          (fun x y => Pipeline.format_group_key x.1 ≠ Pipeline.format_group_key y.1) := by
      intro l hl
      exact List.Pairwise.map _ (fun a b hab => hab) hl
    have hlab2 : (l2.filter fun g => Pipeline.hasAllPlanes g.2).Pairwise
        (fun g h => Pipeline.format_group_key g.1 ≠ Pipeline.format_group_key h.1) :=
      ((hperm.filter _).pairwise_iff (fun hab => hab.symm)).mp hlab
    have hsorted : ∀ l : List Pipeline.GroupEntry,
        (l.filter fun g => Pipeline.hasAllPlanes g.2).Pairwise
          (fun g h => Pipeline.format_group_key g.1 ≠ Pipeline.format_group_key h.1) →
        (Pipeline.discover_complete l).Pairwise R := by
      intro l hl
      have h1 : (Pipeline.discover_complete l).Sorted Pipeline.dcLE :=
        List.sorted_insertionSort Pipeline.dcLE _
      have h2 : (Pipeline.discover_complete l).Pairwise
          (fun x y => Pipeline.format_group_key x.1 ≠ Pipeline.format_group_key y.1) := by
        refine ((List.perm_insertionSort Pipeline.dcLE _).pairwise_iff
          (fun hab => hab.symm)).mpr ?_
        exact hmapf l hl
      exact h1.and h2
    have hp : (Pipeline.discover_complete l1).Perm (Pipeline.discover_complete l2) :=
      (List.perm_insertionSort Pipeline.dcLE _).trans
        (((hperm.filter _).map _).trans (List.perm_insertionSort Pipeline.dcLE _).symm)
    exact List.eq_of_perm_of_sorted hp (hsorted l1 hlab) (hsorted l2 hlab2)
  · intro e
    unfold Pipeline.discover_complete
    rw [List.mem_insertionSort, List.mem_map]
    constructor
    · rintro ⟨g, hg, rfl⟩
      exact ⟨g, (List.mem_filter.mp hg).1, (List.mem_filter.mp hg).2, rfl⟩
    · rintro ⟨g, hg, hcomplete, rfl⟩
      exact ⟨g, List.mem_filter.mpr ⟨hg, hcomplete⟩, rfl⟩

/-- C9 witness: two complete groups for subjects 02 and 01, presented in the
two possible iteration orders, yield the same discovery list. -/
theorem discover_complete_props_witness :
    Pipeline.discover_complete
        [([("subject".data, "02".data)], [("sag".data, "s2".data),
            ("cor".data, "c2".data), ("ax".data, "a2".data)]),
         ([("subject".data, "01".data)], [("sag".data, "s1".data),
            ("cor".data, "c1".data), ("ax".data, "a1".data)])]
      = Pipeline.discover_complete
        [([("subject".data, "01".data)], [("sag".data, "s1".data),
            ("cor".data, "c1".data), ("ax".data, "a1".data)]),
         ([("subject".data, "02".data)], [("sag".data, "s2".data),
            ("cor".data, "c2".data), ("ax".data, "a2".data)])] :=
  (discover_complete_props _ _ (List.Perm.swap _ _ _) (by decide)).1

/-- C5 (counterexample): the claim says the group key excludes exactly
{acquisition, suffix, extension, datatype}. For `group_key_from_entities` of
src/preprocess.py this is false: `datatype` is not in that file's
`GROUP_EXCLUDED_ENTITIES`, so a non-null `datatype` entity appears in the key.
Concretely, for the entity map {subject: 01, datatype: anat} the produced key
contains the pair (datatype, anat); src/pipeline.py's copy excludes it. -/
theorem group_key_datatype_counterexample :
    Preprocess.group_key_from_entities
        [("subject".data, some "01".data), ("datatype".data, some "anat".data)]
      = [("datatype".data, "anat".data), ("subject".data, "01".data)]
    ∧ ("datatype".data, "anat".data)
        ∈ Preprocess.group_key_from_entities
            [("subject".data, some "01".data), ("datatype".data, some "anat".data)]
    ∧ ("datatype".data, "anat".data)
        ∉ Pipeline.group_key_from_entities
            [("subject".data, some "01".data), ("datatype".data, some "anat".data)] := by
  decide

/-- C5 (amended): for every entity map, the group key is the tuple of
(entity-name, value) pairs sorted by (name, value), excluding null-valued
entities; the exclusion set is {acquisition, suffix, extension, datatype} in
src/pipeline.py but only {acquisition, suffix, extension} in src/preprocess.py
(datatype is kept there). In both files, two entity maps with the same entries
produce identical keys regardless of insertion/iteration order. -/
theorem group_key_from_entities_spec (e1 e2 : Entities) (hperm : e1.Perm e2) :
    Preprocess.group_key_from_entities e1 = Preprocess.group_key_from_entities e2
    ∧ Pipeline.group_key_from_entities e1 = Pipeline.group_key_from_entities e2
    ∧ (∀ p : Str × Str, p ∈ Pipeline.group_key_from_entities e1 ↔
        ((p.1, some p.2) ∈ e1 ∧ p.1 ∉ Pipeline.GROUP_EXCLUDED_ENTITIES))
    ∧ (∀ p : Str × Str, p ∈ Preprocess.group_key_from_entities e1 ↔
        ((p.1, some p.2) ∈ e1 ∧ p.1 ∉ Preprocess.GROUP_EXCLUDED_ENTITIES))
    ∧ (Pipeline.group_key_from_entities e1).Sorted pairLE
    ∧ (Preprocess.group_key_from_entities e1).Sorted pairLE := by
  refine ⟨insertionSort_eq_of_perm pairLE (hperm.filterMap _),
          insertionSort_eq_of_perm pairLE (hperm.filterMap _), ?_, ?_,
          List.sorted_insertionSort pairLE _, List.sorted_insertionSort pairLE _⟩
  · intro p
    unfold Pipeline.group_key_from_entities
    rw [List.mem_insertionSort, List.mem_filterMap]
    constructor
    · rintro ⟨⟨k, v?⟩, hmem, hf⟩
      cases v? with
      | none => simp at hf
      | some v =>
        by_cases hexcl : k ∈ Pipeline.GROUP_EXCLUDED_ENTITIES
        · simp [hexcl] at hf
        · simp only [hexcl, if_neg, if_false] at hf
          obtain rfl : (k, v) = p := by simpa using hf
          exact ⟨hmem, hexcl⟩
    · rintro ⟨hmem, hexcl⟩
      exact ⟨(p.1, some p.2), hmem, by simp [hexcl]⟩
  · intro p
    unfold Preprocess.group_key_from_entities
    rw [List.mem_insertionSort, List.mem_filterMap]
    constructor
    · rintro ⟨⟨k, v?⟩, hmem, hf⟩
      cases v? with
      | none => simp at hf
      | some v =>
        by_cases hexcl : k ∈ Preprocess.GROUP_EXCLUDED_ENTITIES
        · simp [hexcl] at hf
        · simp only [hexcl, if_neg, if_false] at hf
          obtain rfl : (k, v) = p := by simpa using hf
          exact ⟨hmem, hexcl⟩
    · rintro ⟨hmem, hexcl⟩
      exact ⟨(p.1, some p.2), hmem, by simp [hexcl]⟩

namespace Pipeline

/-- `path.count(os.sep)` with `os.sep = '/'`: the directory depth used by
`better_path` (src/pipeline.py lines 132-133). -/
def pathDepth (p : Str) : Nat := p.count '/'

/-- `better_path` of src/pipeline.py lines 129-138. Python's `min` on two
strings returns the first argument when the two compare equal. -/
def better_path (path_a : Option Str) (path_b : Str) : Str :=
  match path_a with
  | none => path_b
  | some a =>
      let depth_a := pathDepth a
      let depth_b := pathDepth path_b
      if depth_b < depth_a then path_b
      else if depth_a < depth_b then a
      else if strLEb a path_b then a else path_b

end Pipeline

/-- The total preorder implicitly minimized by `better_path`: shallower depth
first, lexicographically smaller path on equal depth. -/
def bpLE (a b : Str) : Prop :=
  Pipeline.pathDepth a < Pipeline.pathDepth b
  ∨ (Pipeline.pathDepth a = Pipeline.pathDepth b ∧ strLE a b)

instance : DecidableRel bpLE := fun a b => inferInstanceAs (Decidable (_ ∨ _))

theorem bpLE_depth_lt {a b : Str}
    (h : Pipeline.pathDepth a < Pipeline.pathDepth b) : bpLE a b := Or.inl h

theorem bpLE_depth_eq {a b : Str} (h : Pipeline.pathDepth a = Pipeline.pathDepth b)
    (h' : strLE a b) : bpLE a b := Or.inr ⟨h, h'⟩

theorem not_bpLE_depth {a b : Str}
    (h : Pipeline.pathDepth b < Pipeline.pathDepth a) : ¬ bpLE a b := by
  rintro (hcon | ⟨hcon, _⟩) <;> omega

theorem not_bpLE_lex {a b : Str} (h : Pipeline.pathDepth a = Pipeline.pathDepth b)
    (h' : ¬ strLE a b) : ¬ bpLE a b := by
  rintro (hcon | ⟨_, hcon⟩)
  · omega
  · exact h' hcon

theorem better_path_eq_minBy (a b : Str) :
    Pipeline.better_path (some a) b = if bpLE a b then a else b := by
  show (if Pipeline.pathDepth b < Pipeline.pathDepth a then b
        else if Pipeline.pathDepth a < Pipeline.pathDepth b then a
        else if strLEb a b then a else b) = if bpLE a b then a else b
  rcases Nat.lt_trichotomy (Pipeline.pathDepth a) (Pipeline.pathDepth b) with h | h | h
  · rw [if_neg (Nat.lt_asymm h), if_pos h, if_pos (bpLE_depth_lt h)]
  · rw [if_neg (by omega : ¬ Pipeline.pathDepth b < Pipeline.pathDepth a),
        if_neg (by omega : ¬ Pipeline.pathDepth a < Pipeline.pathDepth b)]
    by_cases hle : strLEb a b = true
    · rw [if_pos hle, if_pos (bpLE_depth_eq h hle)]
    · rw [if_neg hle, if_neg (not_bpLE_lex h hle)]
  · rw [if_pos h, if_neg (not_bpLE_depth h)]

theorem bpLE_total (a b : Str) : bpLE a b ∨ bpLE b a := by
  rcases Nat.lt_trichotomy (Pipeline.pathDepth a) (Pipeline.pathDepth b) with h | h | h
  · exact Or.inl (Or.inl h)
  · rcases strLE_total a b with h' | h'
    · exact Or.inl (Or.inr ⟨h, h'⟩)
    · exact Or.inr (Or.inr ⟨h.symm, h'⟩)
  · exact Or.inr (Or.inl h)

theorem bpLE_trans {a b c : Str} (hab : bpLE a b) (hbc : bpLE b c) : bpLE a c := by
  rcases hab with h1 | ⟨h1, h1'⟩
  · rcases hbc with h2 | ⟨h2, _⟩
    · exact Or.inl (Nat.lt_trans h1 h2)
    · exact Or.inl (h2 ▸ h1)
  · rcases hbc with h2 | ⟨h2, h2'⟩
    · exact Or.inl (h1 ▸ h2)
    · exact Or.inr ⟨h1.trans h2, strLE_trans _ _ _ h1' h2'⟩

/-- C8: `better_path` picks the shallower path; on equal depth it picks the
lexicographically smaller one (and is deterministic); the induced binary
selection is associative — `better_path(better_path(a,b),c) =
better_path(a,better_path(b,c))` — and idempotent (`better_path(a,a) = a`). -/
theorem better_path_props (a b c : Str) :
    (Pipeline.better_path (some a) b = a ∨ Pipeline.better_path (some a) b = b)
    ∧ (Pipeline.pathDepth a < Pipeline.pathDepth b → Pipeline.better_path (some a) b = a)
    ∧ (Pipeline.pathDepth b < Pipeline.pathDepth a → Pipeline.better_path (some a) b = b)
    ∧ (Pipeline.pathDepth a = Pipeline.pathDepth b → strLE a b →
        Pipeline.better_path (some a) b = a)
    ∧ (Pipeline.pathDepth a = Pipeline.pathDepth b → ¬ strLE a b →
        Pipeline.better_path (some a) b = b)
    ∧ Pipeline.better_path (some (Pipeline.better_path (some a) b)) c
        = Pipeline.better_path (some a) (Pipeline.better_path (some b) c)
    ∧ Pipeline.better_path (some a) a = a := by
  refine ⟨?_, ?_, ?_, ?_, ?_, ?_, ?_⟩
  · rw [better_path_eq_minBy]
    by_cases h : bpLE a b
    · exact Or.inl (if_pos h)
    · exact Or.inr (if_neg h)
  · intro h
    rw [better_path_eq_minBy, if_pos (bpLE_depth_lt h)]
  · intro h
    rw [better_path_eq_minBy, if_neg (not_bpLE_depth h)]
  · intro h h'
    rw [better_path_eq_minBy, if_pos (bpLE_depth_eq h h')]
  · intro h h'
    rw [better_path_eq_minBy, if_neg (not_bpLE_lex h h')]
  · simp only [better_path_eq_minBy]
    by_cases h1 : bpLE a b
    · by_cases h2 : bpLE b c
      · simp only [if_pos h1, if_pos h2, if_pos (bpLE_trans h1 h2)]
      · simp only [if_pos h1, if_neg h2]
    · by_cases h2 : bpLE b c
      · simp only [if_neg h1, if_pos h2]
      · simp only [if_neg h1, if_neg h2]
        have hac : ¬ bpLE a c := by
          intro hac
          rcases bpLE_total b a with hba | hba
          · exact h2 (bpLE_trans hba hac)
          · exact h1 hba
        rw [if_neg hac]
  · rw [better_path_eq_minBy]
    by_cases h : bpLE a a
    · rw [if_pos h]
    · rw [if_neg h]

/-- C8 witness: concrete evaluations through `better_path_props`. -/
theorem better_path_props_witness :
    Pipeline.better_path (some "sub-01/anat".data) "sub-01/deep/anat".data
      = "sub-01/anat".data
    ∧ Pipeline.better_path (some "a/b".data) "a/a".data = "a/a".data :=
  ⟨(better_path_props "sub-01/anat".data "sub-01/deep/anat".data []).2.1 (by decide),
   (better_path_props "a/b".data "a/a".data []).2.2.2.2.1 (by decide) (by decide)⟩

/-- C5 witness: a concrete permuted pair of entity maps giving equal keys. -/
theorem group_key_from_entities_spec_witness :
    Preprocess.group_key_from_entities
        [("subject".data, some "01".data), ("run".data, some "2".data)]
      = Preprocess.group_key_from_entities
        [("run".data, some "2".data), ("subject".data, some "01".data)] :=
  (group_key_from_entities_spec _ _ (List.Perm.swap _ _ _)).1


namespace Preprocess

/-- Step 3 of src/preprocess.py (lines 506-538), for one image: start with
`fft_win = 1` and `max_factor = -inf`; for each axis `jj` in 0,1,2 compute
`factor = lr_spacing[jj] / spacing[jj]`; when `factor > 1`, and additionally
`max_factor < factor`, replace the stored filter by the one built for axis `jj`
and set `max_factor = factor`. The result records which axis's Gaussian filter
is finally stored (`some j`), or `none` when `fft_win` stays the scalar
identity 1. `max_factor = -inf` is modelled by the `none` state, which any
`factor` exceeds. -/
def filter_axis_select (lr_spacing spacing : Fin 3 → ℚ) : Option (Fin 3) :=
  (List.foldl
    (fun (st : Option (Fin 3) × Option ℚ) j =>
      let factor := lr_spacing j / spacing j
      if 1 < factor then
        match st.2 with
        | none => (some j, some factor)
        | some m => if m < factor then (some j, some factor) else st
      else st)
    (none, none) ([0, 1, 2] : List (Fin 3))).1

end Preprocess

/-- Unfolding of `filter_axis_select` into its explicit decision tree over the
three spacing ratios. -/
theorem filter_axis_select_eq (lr sp : Fin 3 → ℚ) :
    Preprocess.filter_axis_select lr sp =
      (if 1 < lr 0 / sp 0 then
         (if 1 < lr 1 / sp 1 then
            (if lr 0 / sp 0 < lr 1 / sp 1 then
               (if 1 < lr 2 / sp 2 then
                  (if lr 1 / sp 1 < lr 2 / sp 2 then some 2 else some 1)
                else some 1)
             else
               (if 1 < lr 2 / sp 2 then
                  (if lr 0 / sp 0 < lr 2 / sp 2 then some 2 else some 0)
                else some 0))
          else
            (if 1 < lr 2 / sp 2 then
               (if lr 0 / sp 0 < lr 2 / sp 2 then some 2 else some 0)
             else some 0))
       else
         (if 1 < lr 1 / sp 1 then
            (if 1 < lr 2 / sp 2 then
               (if lr 1 / sp 1 < lr 2 / sp 2 then some 2 else some 1)
             else some 1)
          else
            (if 1 < lr 2 / sp 2 then some 2 else none))) := by
  simp only [Preprocess.filter_axis_select, List.foldl_cons, List.foldl_nil]
  by_cases h0 : 1 < lr 0 / sp 0 <;> by_cases h1 : 1 < lr 1 / sp 1 <;>
    by_cases h2 : 1 < lr 2 / sp 2 <;>
    by_cases h01 : lr 0 / sp 0 < lr 1 / sp 1 <;>
    by_cases h12 : lr 1 / sp 1 < lr 2 / sp 2 <;>
    by_cases h02 : lr 0 / sp 0 < lr 2 / sp 2 <;>
    simp [h0, h1, h2, h01, h12, h02]

/-- C3: for each image, only axes with native/reference spacing ratio > 1 are
candidates for the persisted deconvolution filter; if no axis has ratio > 1
the filter is the scalar identity (modelled `none`); when some candidate axis
strictly dominates every other axis's ratio, that axis's filter is stored. -/
theorem filter_axis_select_spec (lr_spacing spacing : Fin 3 → ℚ) :
    ((∀ j : Fin 3, ¬ (1 < lr_spacing j / spacing j)) →
        Preprocess.filter_axis_select lr_spacing spacing = none)
    ∧ (∀ j : Fin 3, Preprocess.filter_axis_select lr_spacing spacing = some j →
        1 < lr_spacing j / spacing j)
    ∧ (∀ j : Fin 3, 1 < lr_spacing j / spacing j →
        (∀ k : Fin 3, k ≠ j → lr_spacing k / spacing k < lr_spacing j / spacing j) →
        Preprocess.filter_axis_select lr_spacing spacing = some j) := by
  refine ⟨?_, ?_, ?_⟩
  · intro h
    rw [filter_axis_select_eq, if_neg (h 0), if_neg (h 1), if_neg (h 2)]
  · intro j hj
    rw [filter_axis_select_eq] at hj
    split_ifs at hj <;> cases hj <;> assumption
  · intro j hj hmax
    fin_cases j
    · have hj' : 1 < lr_spacing 0 / spacing 0 := hj
      have m1 : lr_spacing 1 / spacing 1 < lr_spacing 0 / spacing 0 := hmax 1 (by decide)
      have m2 : lr_spacing 2 / spacing 2 < lr_spacing 0 / spacing 0 := hmax 2 (by decide)
      rw [filter_axis_select_eq]
      split_ifs <;> first | rfl | (exfalso; linarith)
    · have hj' : 1 < lr_spacing 1 / spacing 1 := hj
      have m0 : lr_spacing 0 / spacing 0 < lr_spacing 1 / spacing 1 := hmax 0 (by decide)
      have m2 : lr_spacing 2 / spacing 2 < lr_spacing 1 / spacing 1 := hmax 2 (by decide)
      rw [filter_axis_select_eq]
      split_ifs <;> first | rfl | (exfalso; linarith)
    · have hj' : 1 < lr_spacing 2 / spacing 2 := hj
      have m0 : lr_spacing 0 / spacing 0 < lr_spacing 2 / spacing 2 := hmax 0 (by decide)
      have m1 : lr_spacing 1 / spacing 1 < lr_spacing 2 / spacing 2 := hmax 1 (by decide)
      rw [filter_axis_select_eq]
      split_ifs <;> first | rfl | (exfalso; linarith)

/-- C3 witness: native spacing (3,1,2) against reference spacing (1,1,1):
axis 0 has the unique largest ratio and is selected. -/
theorem filter_axis_select_spec_witness :
    Preprocess.filter_axis_select ![3, 1, 2] ![1, 1, 1] = some 0 := by
  apply (filter_axis_select_spec ![3, 1, 2] ![1, 1, 1]).2.2 0 (by norm_num)
  intro k hk
  fin_cases k
  · exact absurd rfl hk
  · norm_num
  · norm_num

/-- C4 (counterexample): with native spacing (2,1,2) and reference spacing
(1,1,1), axes 0 and 2 are both candidates and tie exactly on the ratio 2;
the stored filter is the one for axis 0 — the axis evaluated FIRST — not
axis 2 as the claim states, because the code replaces the filter only on a
strictly larger ratio (`if max_factor < factor`). -/
theorem filter_axis_tie_counterexample :
    Preprocess.filter_axis_select ![2, 1, 2] ![1, 1, 1] = some 0
    ∧ (1 : ℚ) < (2 : ℚ) / 1
    ∧ ((2 : ℚ) / 1 = (2 : ℚ) / 1)
    ∧ some (0 : Fin 3) ≠ some (2 : Fin 3) := by
  refine ⟨?_, by norm_num, rfl, by decide⟩
  simp only [Preprocess.filter_axis_select, List.foldl_cons, List.foldl_nil]
  norm_num

/-- C4 (amended): when several axes have ratio > 1 and tie exactly on the
maximal ratio, the stored deconvolution filter is the one for the axis
evaluated FIRST in the fixed iteration order (axis 0 wins ties over axis 2):
the filter is replaced only when a strictly larger ratio is found. -/
theorem filter_axis_tie_first (lr_spacing spacing : Fin 3 → ℚ) (j : Fin 3)
    (hcand : 1 < lr_spacing j / spacing j)
    (hmax : ∀ k : Fin 3, lr_spacing k / spacing k ≤ lr_spacing j / spacing j)
    (hfirst : ∀ k : Fin 3, k < j → lr_spacing k / spacing k < lr_spacing j / spacing j) :
    Preprocess.filter_axis_select lr_spacing spacing = some j := by
  fin_cases j
  · have hc : 1 < lr_spacing 0 / spacing 0 := hcand
    have m1 : lr_spacing 1 / spacing 1 ≤ lr_spacing 0 / spacing 0 := hmax 1
    have m2 : lr_spacing 2 / spacing 2 ≤ lr_spacing 0 / spacing 0 := hmax 2
    rw [filter_axis_select_eq]
    split_ifs <;> first | rfl | (exfalso; linarith)
  · have hc : 1 < lr_spacing 1 / spacing 1 := hcand
    have m0 : lr_spacing 0 / spacing 0 ≤ lr_spacing 1 / spacing 1 := hmax 0
    have m2 : lr_spacing 2 / spacing 2 ≤ lr_spacing 1 / spacing 1 := hmax 2
    have s0 : lr_spacing 0 / spacing 0 < lr_spacing 1 / spacing 1 := hfirst 0 (by decide)
    rw [filter_axis_select_eq]
    split_ifs <;> first | rfl | (exfalso; linarith)
  · have hc : 1 < lr_spacing 2 / spacing 2 := hcand
    have m0 : lr_spacing 0 / spacing 0 ≤ lr_spacing 2 / spacing 2 := hmax 0
    have m1 : lr_spacing 1 / spacing 1 ≤ lr_spacing 2 / spacing 2 := hmax 1
    have s0 : lr_spacing 0 / spacing 0 < lr_spacing 2 / spacing 2 := hfirst 0 (by decide)
    have s1 : lr_spacing 1 / spacing 1 < lr_spacing 2 / spacing 2 := hfirst 1 (by decide)
    rw [filter_axis_select_eq]
    split_ifs <;> first | rfl | (exfalso; linarith)

/-- C4 witness: the tie input (ratios 2, 1, 2) through `filter_axis_tie_first`:
axis 0 is selected. -/
theorem filter_axis_tie_first_witness :
    Preprocess.filter_axis_select ![2, 1, 2] ![1, 1, 1] = some 0 := by
  apply filter_axis_tie_first ![2, 1, 2] ![1, 1, 1] 0 (by norm_num)
  · intro k
    fin_cases k <;> norm_num
  · intro k hk
    fin_cases k <;> exact absurd hk (by decide)

namespace Preprocess

/-- `np.around`: round to the nearest integer, ties to even (numpy's
"banker's rounding"). -/
def np_around (x : ℚ) : ℤ :=
  if x - (⌊x⌋ : ℚ) < 1/2 then ⌊x⌋
  else if 1/2 < x - (⌊x⌋ : ℚ) then ⌊x⌋ + 1
  else if ⌊x⌋ % 2 = 0 then ⌊x⌋ else ⌊x⌋ + 1

/-- Step 1 of src/preprocess.py (lines 468-475), per non-reference image and
axis `j`: `lr_size[:,ii] = np.minimum(native_size,
np.around(spacing / lr_spacing[:,ii] * sz))` followed by
`lr_size[lr_size[:,ii] % 2 != 0, ii] -= 1`. -/
def lr_size_step1 (spacing : Fin 3 → ℚ) (sz : Fin 3 → ℤ)
    (native_size : Fin 3 → ℤ) (native_spacing : Fin 3 → ℚ) (j : Fin 3) : ℤ :=
  let s := min (native_size j) (np_around (spacing j / native_spacing j * (sz j : ℚ)))
  if s % 2 ≠ 0 then s - 1 else s

end Preprocess

/-- C6: for every non-reference image and axis, the recorded effective
low-resolution size equals min(native_size, around(reference_spacing /
native_spacing * reference_size)) rounded down to the nearest even integer:
the result is even, at most the min, and no larger even integer is below the
min ("around" being numpy's round-half-to-even, as in the source). -/
theorem lr_size_step1_spec (spacing : Fin 3 → ℚ) (sz : Fin 3 → ℤ)
    (native_size : Fin 3 → ℤ) (native_spacing : Fin 3 → ℚ) (j : Fin 3) :
    Preprocess.lr_size_step1 spacing sz native_size native_spacing j
        = min (native_size j)
            (Preprocess.np_around (spacing j / native_spacing j * (sz j : ℚ)))
          - (min (native_size j)
              (Preprocess.np_around (spacing j / native_spacing j * (sz j : ℚ)))) % 2
    ∧ (Preprocess.lr_size_step1 spacing sz native_size native_spacing j) % 2 = 0
    ∧ Preprocess.lr_size_step1 spacing sz native_size native_spacing j
        ≤ min (native_size j)
            (Preprocess.np_around (spacing j / native_spacing j * (sz j : ℚ)))
    ∧ (∀ m : ℤ, m % 2 = 0 →
        m ≤ min (native_size j)
              (Preprocess.np_around (spacing j / native_spacing j * (sz j : ℚ))) →
        m ≤ Preprocess.lr_size_step1 spacing sz native_size native_spacing j) := by
  unfold Preprocess.lr_size_step1
  set s := min (native_size j)
    (Preprocess.np_around (spacing j / native_spacing j * (sz j : ℚ))) with hs
  refine ⟨?_, ?_, ?_, ?_⟩
  · by_cases h : s % 2 ≠ 0 <;> simp [h] <;> omega
  · by_cases h : s % 2 ≠ 0 <;> simp [h] <;> omega
  · by_cases h : s % 2 ≠ 0 <;> simp [h] <;> omega
  · intro m hm hms
    by_cases h : s % 2 ≠ 0 <;> simp [h] <;> omega

/-- C6 witness: native size 7, native spacing 1/2, reference spacing 1 and
reference size 10 on an axis: min(7, around(20)) = 7, rounded down to even 6. -/
theorem lr_size_step1_spec_witness :
    Preprocess.lr_size_step1 ![1, 1, 1] ![10, 10, 10] ![7, 7, 7] ![1/2, 1/2, 1/2] 0 = 6
    ∧ (6 : ℤ)
        ≤ Preprocess.lr_size_step1 ![1, 1, 1] ![10, 10, 10] ![7, 7, 7] ![1/2, 1/2, 1/2] 0 := by
  have h := lr_size_step1_spec ![1, 1, 1] ![10, 10, 10] ![7, 7, 7] ![1/2, 1/2, 1/2] 0
  have haround : Preprocess.np_around
      ((![1, 1, 1] : Fin 3 → ℚ) 0 / (![1/2, 1/2, 1/2] : Fin 3 → ℚ) 0
        * (((![10, 10, 10] : Fin 3 → ℤ) 0 : ℤ) : ℚ)) = 20 := by
    have hq : (![1, 1, 1] : Fin 3 → ℚ) 0 / (![1/2, 1/2, 1/2] : Fin 3 → ℚ) 0
        * (((![10, 10, 10] : Fin 3 → ℤ) 0 : ℤ) : ℚ) = 20 := by
      norm_num
    rw [hq]
    have hfl : (⌊(20 : ℚ)⌋ : ℤ) = 20 := by
      rw [Int.floor_eq_iff] <;> norm_num
    unfold Preprocess.np_around
    rw [hfl]
    norm_num
  have hmin : min ((![7, 7, 7] : Fin 3 → ℤ) 0)
      (Preprocess.np_around
        ((![1, 1, 1] : Fin 3 → ℚ) 0 / (![1/2, 1/2, 1/2] : Fin 3 → ℚ) 0
          * (((![10, 10, 10] : Fin 3 → ℤ) 0 : ℤ) : ℚ))) = 7 := by
    rw [haround]
    norm_num
  constructor
  · rw [h.1, hmin]
    decide
  · exact h.2.2.2 6 (by decide) (by rw [hmin]; norm_num)

namespace Preprocess

/-- Step 4 of src/preprocess.py (lines 544-555), modelled per voxel: the
running sum `z` is seeded with the resampled reoriented reference volume's
voxel (`z = sitk.GetArrayFromImage(img0x)`) and accumulated with `z += a`
over the registered non-reference volumes' voxels. -/
def fuse_sum (z0 : ℚ) (contribs : List ℚ) : ℚ :=
  contribs.foldl (fun z a => z + a) z0

/-- The coverage count `L` of step 4: seeded `L = np.ones_like(z)` and
accumulated with `L += (a != 0)` per contributing voxel. -/
def fuse_count (contribs : List ℚ) : ℚ :=
  contribs.foldl (fun L a => L + (if a ≠ 0 then 1 else 0)) 1

/-- The fused voxel: `z[L!=0] = z[L!=0] / L[L!=0]` — divide the sum by the
coverage where the coverage is non-zero, keep the raw sum elsewhere. -/
def fuse_voxel (z0 : ℚ) (contribs : List ℚ) : ℚ :=
  if fuse_count contribs ≠ 0 then fuse_sum z0 contribs / fuse_count contribs
  else fuse_sum z0 contribs

end Preprocess

theorem fuse_sum_eq (z0 : ℚ) (contribs : List ℚ) :
    Preprocess.fuse_sum z0 contribs = z0 + contribs.sum := by
  induction contribs generalizing z0 with
  | nil => simp [Preprocess.fuse_sum]
  | cons a cs ih =>
    simp only [Preprocess.fuse_sum, List.foldl_cons, List.sum_cons] at *
    rw [ih (z0 + a)]
    ring

theorem fuse_count_aux (L0 : ℚ) (contribs : List ℚ) :
    contribs.foldl (fun L a => L + (if a ≠ 0 then 1 else 0)) L0
      = L0 + ((contribs.filter fun a => a ≠ 0).length : ℚ) := by
  induction contribs generalizing L0 with
  | nil => simp
  | cons a cs ih =>
    by_cases ha : a = 0
    · simp only [List.foldl_cons, ha, List.filter_cons]
      rw [ih]
      simp
    · simp only [List.foldl_cons, List.filter_cons]
      rw [ih]
      simp [ha]
      ring

theorem fuse_count_eq (contribs : List ℚ) :
    Preprocess.fuse_count contribs
      = 1 + ((contribs.filter fun a => a ≠ 0).length : ℚ) :=
  fuse_count_aux 1 contribs

/-- C2: the fused volume starts from the resampled reoriented reference voxel
array, adds each registered non-reference voxel array into a running sum, and
keeps a coverage count starting at 1 everywhere and incrementing at each voxel
where a contribution is non-zero; the fused value is sum/count where the count
is non-zero and the raw sum where it is zero. -/
theorem fuse_voxel_spec (z0 : ℚ) (contribs : List ℚ) :
    Preprocess.fuse_sum z0 contribs = z0 + contribs.sum
    ∧ Preprocess.fuse_count contribs
        = 1 + ((contribs.filter fun a => a ≠ 0).length : ℚ)
    ∧ Preprocess.fuse_voxel z0 contribs
        = (if (1 + ((contribs.filter fun a => a ≠ 0).length : ℚ)) ≠ 0
            then (z0 + contribs.sum)
              / (1 + ((contribs.filter fun a => a ≠ 0).length : ℚ))
            else z0 + contribs.sum) := by
  refine ⟨fuse_sum_eq z0 contribs, fuse_count_eq contribs, ?_⟩
  unfold Preprocess.fuse_voxel
  rw [fuse_sum_eq, fuse_count_eq]

/-- C10: the coverage count starts at 1 and is only ever incremented, so it is
at least 1 everywhere, never zero; the division defining the fused value is
always well-defined and the zero-coverage branch is unreachable. -/
theorem fuse_count_pos (z0 : ℚ) (contribs : List ℚ) :
    1 ≤ Preprocess.fuse_count contribs
    ∧ Preprocess.fuse_count contribs ≠ 0
    ∧ Preprocess.fuse_voxel z0 contribs
        = Preprocess.fuse_sum z0 contribs / Preprocess.fuse_count contribs := by
  have h1 : 1 ≤ Preprocess.fuse_count contribs := by
    rw [fuse_count_eq]
    have : (0 : ℚ) ≤ ((contribs.filter fun a => a ≠ 0).length : ℚ) := by positivity
    linarith
  have h2 : Preprocess.fuse_count contribs ≠ 0 := by
    intro hc
    rw [hc] at h1
    norm_num at h1
  exact ⟨h1, h2, by unfold Preprocess.fuse_voxel; rw [if_pos h2]⟩

namespace Preprocess

/-- An event of the preprocess.py script run: one external registration
invocation (with the exit status the invoked command returned), or the start
of the fusion step. -/
inductive ScriptEvent where
  | registration (ii : Nat) (exitCode : Int)
  | fusion
deriving DecidableEq

/-- Steps 2 and 4 of src/preprocess.py as an event trace. Step 2
(lines 494-501) runs `os.system(cmd)` for each non-reference image
`ii = 1 .. n_imgs-1` and DISCARDS the returned exit status: the loop body has
no conditional, and the script is straight-line, so the fusion step's events
follow unconditionally after the loop. The external tool's exit codes are
supplied by the oracle `exitCode`. -/
def preprocess_trace (n_imgs : Nat) (exitCode : Nat → Int) : List ScriptEvent :=
  ((List.range (n_imgs - 1)).map fun k => .registration (k + 1) (exitCode (k + 1)))
    ++ [.fusion]

end Preprocess

/-- C1 (counterexample): a run with 3 images in which every registration
command exits with status 1 (non-zero) still reaches fusion: the run is not
aborted and no failure is reported — the exit status is discarded. -/
theorem registration_failure_counterexample :
    Preprocess.preprocess_trace 3 (fun _ => 1)
      = [.registration 1 1, .registration 2 1, .fusion]
    ∧ (1 : Int) ≠ 0
    ∧ Preprocess.ScriptEvent.fusion ∈ Preprocess.preprocess_trace 3 (fun _ => 1) := by
  refine ⟨rfl, by decide, by decide⟩

/-- C1 (amended): preprocess.py never inspects the registration commands' exit
statuses (`os.system(cmd)`'s result is unused), so for every run and every
assignment of exit codes — including non-zero ones — the run proceeds to the
fusion step. -/
theorem registration_exit_ignored (n_imgs : Nat) (exitCode : Nat → Int) :
    Preprocess.ScriptEvent.fusion ∈ Preprocess.preprocess_trace n_imgs exitCode := by
  unfold Preprocess.preprocess_trace
  simp

end GGRRecon
